import Mathlib

set_option maxRecDepth 100000

/-!
Verification of the `kvstore` persistent key-value store (Go).

This file gives a shallow embedding of the store's core: the WAL record
codec (`entry.go`), the write-ahead log (`wal.go`), the snapshot codec
(`snapshot.go`) and the `Store` itself (`store.go`), and proves the
spec's claims about them.

Modelling conventions:
* Go byte slices and Go strings are modelled as `List Nat`, each element a
  byte value (`< 256` where a claim needs it).  Go `nil` slices and empty
  slices are both `[]`.
* Machine integers are `Nat`/`Int` with explicit `% 2 ^ w` at the points
  where Go performs a narrowing conversion (`uint32(len(...))`) or writes
  a fixed-width big-endian field.
* File I/O is abstracted away: the WAL file and the snapshot file are byte
  lists held in a `Disk`; a WAL whose handle has been closed is modelled
  by a `closed` flag (the only write-failure mode exercised by the
  repository's own tests).
* `crc32.ChecksumIEEE` is modelled by the standard bit-level definition of
  the reflected CRC-32 with polynomial `0xEDB88320`, initial value
  `0xFFFFFFFF` and final xor `0xFFFFFFFF`, which is exactly the IEEE
  checksum Go computes (Go uses a table-driven implementation of the same
  function).
-/

/-- Big-endian encoding of a `uint32` value into four bytes, as produced by
`binary.Write(w, binary.BigEndian, x)` for a `uint32`. -/
def natToBe32 (n : Nat) : List Nat :=
  [n / 2 ^ 24 % 256, n / 2 ^ 16 % 256, n / 2 ^ 8 % 256, n % 256]

/-- Big-endian encoding of a `uint64` bit pattern into eight bytes. -/
def natToBe64 (n : Nat) : List Nat :=
  [n / 2 ^ 56 % 256, n / 2 ^ 48 % 256, n / 2 ^ 40 % 256, n / 2 ^ 32 % 256,
   n / 2 ^ 24 % 256, n / 2 ^ 16 % 256, n / 2 ^ 8 % 256, n % 256]

/-- Big-endian interpretation of a byte list, as performed by
`binary.Read(r, binary.BigEndian, &x)`. -/
def beToNat (l : List Nat) : Nat :=
  l.foldl (fun a b => a * 256 + b) 0

/-- The two's-complement `uint64` bit pattern of an `int64` value, as
written by `binary.Write` for an `int64`. -/
def intToUInt64 (t : Int) : Nat :=
  (t % (2 ^ 64 : Int)).toNat

/-- Reading a `uint64` bit pattern back as an `int64` value. -/
def uint64ToInt (n : Nat) : Int :=
  if n < 2 ^ 63 then (n : Int) else (n : Int) - 2 ^ 64

/-- Reading exactly `n` bytes from the front of a stream: `io.ReadFull` /
`binary.Read` on a byte-list reader.  Returns the bytes read and the rest
of the stream, or `none` on a short read (EOF included). -/
def readBytes (n : Nat) (l : List Nat) : Option (List Nat × List Nat) :=
  if n ≤ l.length then some (l.take n, l.drop n) else none

/-- One step of the reflected CRC-32 bit loop with the IEEE polynomial. -/
def crc32Bit (c : Nat) : Nat :=
  if c % 2 = 1 then c / 2 ^^^ 0xEDB88320 else c / 2

/-- Feeding one byte into a running CRC-32: xor the byte in, then run the
bit loop eight times. -/
def crc32Update (c b : Nat) : Nat :=
  crc32Bit (crc32Bit (crc32Bit (crc32Bit (crc32Bit (crc32Bit (crc32Bit (crc32Bit (c ^^^ b))))))))

/-- Model of Go's `crc32.ChecksumIEEE` over a byte list. -/
def crc32 (l : List Nat) : Nat :=
  l.foldl crc32Update 0xFFFFFFFF ^^^ 0xFFFFFFFF

/-- Operation byte for a `Set` record (`entry.go`). -/
def OpSet : Nat := 0x01

/-- Operation byte for a `Delete` record (`entry.go`). -/
def OpDelete : Nat := 0x02

/-- Magic number of a WAL record, `"KVLG"` (`entry.go`). -/
def EntryMagic : Nat := 0x4B564C47

/-- A WAL record (`entry.go`): operation byte, `int64` nanosecond
timestamp, key bytes and value bytes. -/
structure Entry where
  Operation : Nat
  Timestamp : Int
  Key : List Nat
  Value : List Nat
deriving DecidableEq

/-- `NewSetEntry` (`entry.go`), with the clock reading passed explicitly. -/
def NewSetEntry (ts : Int) (key value : List Nat) : Entry :=
  ⟨OpSet, ts, key, value⟩

/-- `NewDeleteEntry` (`entry.go`); the Go constructor stores a `nil`
value, which this embedding represents as `[]`. -/
def NewDeleteEntry (ts : Int) (key : List Nat) : Entry :=
  ⟨OpDelete, ts, key, []⟩

/-- The contents of the `dataBuffer` built by `Entry.Encode`: magic,
operation, timestamp, key length, key, value length, and the value when
`valueLen > 0` (the Go code skips the write for a zero `valueLen`).  The
lengths are narrowed to `uint32` exactly as `uint32(len(...))` does. -/
def Entry.dataBytes (e : Entry) : List Nat :=
  natToBe32 EntryMagic ++ [e.Operation] ++ natToBe64 (intToUInt64 e.Timestamp) ++
    natToBe32 (e.Key.length % 2 ^ 32) ++ e.Key ++
    natToBe32 (e.Value.length % 2 ^ 32) ++
    (if e.Value.length % 2 ^ 32 > 0 then e.Value else [])

/-- `Entry.Encode` (`entry.go`): the buffered record bytes followed by the
CRC-32 of those bytes. -/
def Entry.Encode (e : Entry) : List Nat :=
  e.dataBytes ++ natToBe32 (crc32 e.dataBytes)

/-- Errors surfaced by `DecodeEntry`, abstracting the Go error strings:
`readFail` stands for every `failed to read <field>` error (short read or
EOF), `invalidMagic` for `invalid magic`, and `checksumMismatch` for
`checksum mismatch`.  `WAL.Replay` classifies errors by exactly these
three categories (via `strings.Contains` in the source). -/
inductive DecodeErr where
  | readFail
  | invalidMagic
  | checksumMismatch
deriving DecidableEq

/-- `DecodeEntry` (`entry.go`): read magic, operation, timestamp, key
length, key, value length, value and the stored checksum in order,
re-accumulating the read bytes and comparing their CRC-32 against the
stored checksum.  Returns the decoded record and the unconsumed rest of
the stream. -/
def DecodeEntry (l : List Nat) : Except DecodeErr (Entry × List Nat) :=
  match readBytes 4 l with
  | none => .error .readFail
  | some (magicB, r1) =>
    if beToNat magicB ≠ EntryMagic then .error .invalidMagic else
    match readBytes 1 r1 with
    | none => .error .readFail
    | some (opB, r2) =>
      match readBytes 8 r2 with
      | none => .error .readFail
      | some (tsB, r3) =>
        match readBytes 4 r3 with
        | none => .error .readFail
        | some (klB, r4) =>
          match readBytes (beToNat klB) r4 with
          | none => .error .readFail
          | some (keyB, r5) =>
            match readBytes 4 r5 with
            | none => .error .readFail
            | some (vlB, r6) =>
              match readBytes (beToNat vlB) r6 with
              | none => .error .readFail
              | some (valB, r7) =>
                match readBytes 4 r7 with
                | none => .error .readFail
                | some (crcB, r8) =>
                  if crc32 (magicB ++ opB ++ tsB ++ klB ++ keyB ++ vlB ++ valB) ≠ beToNat crcB
                  then .error .checksumMismatch
                  else .ok (⟨opB.headD 0, uint64ToInt (beToNat tsB), keyB, valB⟩, r8)

/-- Decidable equality for `Except`, so that concrete runs of the model
can be checked by `decide`. -/
instance instDecEqExcept {ε α : Type} [DecidableEq ε] [DecidableEq α] :
    DecidableEq (Except ε α) := by
  intro a b
  cases a <;> cases b
  case error.error x y =>
    exact decidable_of_iff (x = y)
      (by constructor <;> (intro h; first | exact congrArg Except.error h | injection h))
  case ok.ok x y =>
    exact decidable_of_iff (x = y)
      (by constructor <;> (intro h; first | exact congrArg Except.ok h | injection h))
  all_goals exact isFalse (by intro h; injection h)

theorem natToBe32_length (n : Nat) : (natToBe32 n).length = 4 := rfl

theorem natToBe64_length (n : Nat) : (natToBe64 n).length = 8 := rfl

theorem natToBe32_mem_lt (n : Nat) : ∀ b ∈ natToBe32 n, b < 256 := by
  intro b hb
  simp only [natToBe32, List.mem_cons, List.not_mem_nil, or_false] at hb
  rcases hb with rfl | rfl | rfl | rfl <;> omega

theorem natToBe64_mem_lt (n : Nat) : ∀ b ∈ natToBe64 n, b < 256 := by
  intro b hb
  simp only [natToBe64, List.mem_cons, List.not_mem_nil, or_false] at hb
  rcases hb with rfl | rfl | rfl | rfl | rfl | rfl | rfl | rfl <;> omega

theorem beToNat_natToBe32 {n : Nat} (h : n < 2 ^ 32) : beToNat (natToBe32 n) = n := by
  simp only [beToNat, natToBe32, List.foldl]
  omega

theorem beToNat_natToBe64 {n : Nat} (h : n < 2 ^ 64) : beToNat (natToBe64 n) = n := by
  simp only [beToNat, natToBe64, List.foldl]
  omega

theorem readBytes_append (xs r : List Nat) : readBytes xs.length (xs ++ r) = some (xs, r) := by
  simp [readBytes, List.take_left, List.drop_left]

theorem readBytes_be32 (n : Nat) (r : List Nat) :
    readBytes 4 (natToBe32 n ++ r) = some (natToBe32 n, r) := by
  have h := readBytes_append (natToBe32 n) r
  rwa [natToBe32_length] at h

theorem readBytes_be64 (n : Nat) (r : List Nat) :
    readBytes 8 (natToBe64 n ++ r) = some (natToBe64 n, r) := by
  have h := readBytes_append (natToBe64 n) r
  rwa [natToBe64_length] at h

theorem readBytes_one (a : Nat) (r : List Nat) : readBytes 1 (a :: r) = some ([a], r) :=
  readBytes_append [a] r

theorem crc32Bit_lt {c : Nat} (h : c < 2 ^ 32) : crc32Bit c < 2 ^ 32 := by
  unfold crc32Bit
  split
  · exact Nat.xor_lt_two_pow (by omega) (by norm_num)
  · omega

theorem crc32Update_lt {c b : Nat} (hc : c < 2 ^ 32) (hb : b < 256) :
    crc32Update c b < 2 ^ 32 := by
  unfold crc32Update
  have h0 : c ^^^ b < 2 ^ 32 := Nat.xor_lt_two_pow hc (by omega)
  exact crc32Bit_lt (crc32Bit_lt (crc32Bit_lt (crc32Bit_lt (crc32Bit_lt (crc32Bit_lt
    (crc32Bit_lt (crc32Bit_lt h0)))))))

theorem crc32_foldl_lt {l : List Nat} {c : Nat} (hc : c < 2 ^ 32)
    (h : ∀ b ∈ l, b < 256) : l.foldl crc32Update c < 2 ^ 32 := by
  induction l generalizing c with
  | nil => exact hc
  | cons a t ih =>
      exact ih (crc32Update_lt hc (h a (by simp))) (fun b hb => h b (by simp [hb]))

theorem crc32_lt {l : List Nat} (h : ∀ b ∈ l, b < 256) : crc32 l < 2 ^ 32 :=
  Nat.xor_lt_two_pow (crc32_foldl_lt (by norm_num) h) (by norm_num)

theorem intToUInt64_lt (t : Int) : intToUInt64 t < 2 ^ 64 := by
  unfold intToUInt64
  omega

theorem uint64ToInt_intToUInt64 {t : Int} (h1 : -(2 ^ 63) ≤ t) (h2 : t < 2 ^ 63) :
    uint64ToInt (intToUInt64 t) = t := by
  unfold uint64ToInt intToUInt64
  split <;> omega

/-- The value field actually written by `Entry.Encode`: for value lengths
below `2 ^ 32` the conditional write is the value itself. -/
theorem valueWriteEq (v : List Nat) (h : v.length < 2 ^ 32) :
    (if v.length % 2 ^ 32 > 0 then v else []) = v := by
  rw [Nat.mod_eq_of_lt h]
  cases v <;> simp

theorem dataBytes_mem_lt (e : Entry) (hop : e.Operation < 256)
    (hv : e.Value.length < 2 ^ 32)
    (hkb : ∀ b ∈ e.Key, b < 256) (hvb : ∀ b ∈ e.Value, b < 256) :
    ∀ b ∈ e.dataBytes, b < 256 := by
  intro b hb
  rw [Entry.dataBytes, valueWriteEq e.Value hv] at hb
  simp only [List.mem_append, List.mem_singleton] at hb
  rcases hb with ((((((h | h) | h) | h) | h) | h) | h)
  · exact natToBe32_mem_lt _ b h
  · omega
  · exact natToBe64_mem_lt _ b h
  · exact natToBe32_mem_lt _ b h
  · exact hkb b h
  · exact natToBe32_mem_lt _ b h
  · exact hvb b h

/-- Round-trip of the record codec on a stream: decoding an encoded
record consumes exactly its bytes and returns the record. -/
theorem DecodeEntry_Encode (e : Entry) (r : List Nat) (hop : e.Operation < 256)
    (ht1 : -(2 ^ 63) ≤ e.Timestamp) (ht2 : e.Timestamp < 2 ^ 63)
    (hk : e.Key.length < 2 ^ 32) (hv : e.Value.length < 2 ^ 32)
    (hkb : ∀ b ∈ e.Key, b < 256) (hvb : ∀ b ∈ e.Value, b < 256) :
    DecodeEntry (e.Encode ++ r) = .ok (e, r) := by
  obtain ⟨op, ts, key, val⟩ := e
  simp only at hop ht1 ht2 hk hv hkb hvb
  have hDlt : ∀ b ∈ Entry.dataBytes ⟨op, ts, key, val⟩, b < 256 :=
    dataBytes_mem_lt _ hop hv hkb hvb
  have hc_lt : crc32 (Entry.dataBytes ⟨op, ts, key, val⟩) < 2 ^ 32 := crc32_lt hDlt
  have hm : beToNat (natToBe32 EntryMagic) = EntryMagic :=
    beToNat_natToBe32 (by norm_num [EntryMagic])
  have hkl : beToNat (natToBe32 (key.length % 2 ^ 32)) = key.length := by
    rw [beToNat_natToBe32 (Nat.mod_lt _ (by norm_num)), Nat.mod_eq_of_lt hk]
  have hvl : beToNat (natToBe32 (val.length % 2 ^ 32)) = val.length := by
    rw [beToNat_natToBe32 (Nat.mod_lt _ (by norm_num)), Nat.mod_eq_of_lt hv]
  have hts : uint64ToInt (beToNat (natToBe64 (intToUInt64 ts))) = ts := by
    rw [beToNat_natToBe64 (intToUInt64_lt ts)]
    exact uint64ToInt_intToUInt64 ht1 ht2
  have hval : (if val.length % 2 ^ 32 > 0 then val else []) = val := valueWriteEq val hv
  have hcrc : beToNat (natToBe32 (crc32 (Entry.dataBytes ⟨op, ts, key, val⟩))) =
      crc32 (Entry.dataBytes ⟨op, ts, key, val⟩) := beToNat_natToBe32 hc_lt
  simp only [Entry.Encode, Entry.dataBytes, hval, List.append_assoc,
    List.singleton_append] at hcrc ⊢
  simp only [show (2 : Nat) ^ 32 = 4294967296 from by norm_num] at hkl hvl hval hcrc ⊢
  simp [DecodeEntry, readBytes_be32, readBytes_be64, readBytes_one, readBytes_append,
    hm, hkl, hvl, hcrc, hts, List.append_assoc, List.singleton_append]
  refine (beToNat_natToBe32 (crc32_lt ?_)).symm
  simpa only [Entry.dataBytes, hval, List.append_assoc, List.singleton_append,
    show (2 : Nat) ^ 32 = 4294967296 from by norm_num] using hDlt

/-- The write-ahead log (`wal.go`): the contents of `<dataDir>/wal.log`
plus a flag recording whether the file handle has been closed, the only
append-failure mode the repository exercises (`TestStoreWALFailure`
closes the handle behind the store's back).  The `syncMode` flag has no
observable effect in this embedding and is omitted. -/
structure WAL where
  file : List Nat
  closed : Bool
deriving DecidableEq

/-- `WAL.Append` (`wal.go`): encode the record into a buffer and write the
buffer to the file in one call; fails when the handle is closed. -/
def WAL.Append (w : WAL) (e : Entry) : Except Unit WAL :=
  if w.closed then .error () else .ok ⟨w.file ++ e.Encode, w.closed⟩

/-- The loop body of `WAL.Replay` (`wal.go`), with explicit fuel so that
the definition is structural (each decoded record consumes at least 25
bytes of the stream, so `length + 1` fuel is never exhausted): decode one
record; a `checksum mismatch` or `failed to read` error stops the replay
cleanly (partial recovery; this also covers plain EOF, which the source
wraps into `failed to read magic`); any other error — in particular
`invalid magic` — is propagated; records with an unknown operation byte
are skipped; known records are handed to the caller in order. -/
def replayLoop : Nat → List Nat → Except DecodeErr (List Entry)
  | 0, _ => .ok []
  | fuel + 1, l =>
    match DecodeEntry l with
    | .error e =>
      if e = DecodeErr.checksumMismatch ∨ e = DecodeErr.readFail then .ok [] else .error e
    | .ok (ent, rest) =>
      match replayLoop fuel rest with
      | .error e2 => .error e2
      | .ok es =>
        .ok (if ent.Operation = OpSet ∨ ent.Operation = OpDelete then ent :: es else es)

/-- `WAL.Replay` (`wal.go`): replay the whole file from the start,
returning the list of valid records with a known operation, in file
order. -/
def WAL.Replay (w : WAL) : Except DecodeErr (List Entry) :=
  replayLoop (w.file.length + 1) w.file

/-- Go map assignment `m[k] = v` on an association list: overwrite the
existing binding or append a new one. -/
def mapInsert : List (List Nat × List Nat) → List Nat → List Nat → List (List Nat × List Nat)
  | [], k, v => [(k, v)]
  | (k1, v1) :: t, k, v => if k1 = k then (k, v) :: t else (k1, v1) :: mapInsert t k v

/-- Go `delete(m, k)` on an association list: drop the binding for `k`
if present (bindings are unique in every map the store builds). -/
def mapRemove : List (List Nat × List Nat) → List Nat → List (List Nat × List Nat)
  | [], _ => []
  | (k1, v1) :: t, k => if k1 = k then t else (k1, v1) :: mapRemove t k

/-- Go map lookup `v, ok := m[k]` on an association list. -/
def mapLookup : List (List Nat × List Nat) → List Nat → Option (List Nat)
  | [], _ => none
  | (k1, v1) :: t, k => if k1 = k then some v1 else mapLookup t k

/-- The on-disk state of a data directory: the optional
`snapshot.dat` contents and the `wal.log` contents. -/
structure Disk where
  snapshot : Option (List Nat)
  wal : List Nat
deriving DecidableEq

/-- The `Store` (`store.go`): the in-memory map and the owned WAL. -/
structure Store where
  data : List (List Nat × List Nat)
  wal : WAL
deriving DecidableEq

/-- The recovery callback of `OpenWithConfig` (`store.go`): `OpSet`
inserts or overwrites, `OpDelete` removes, anything else falls through
the `switch` unchanged. -/
def applyEntry (m : List (List Nat × List Nat)) (e : Entry) : List (List Nat × List Nat) :=
  if e.Operation = OpSet then mapInsert m e.Key e.Value
  else if e.Operation = OpDelete then mapRemove m e.Key
  else m

/-- `OpenWithConfig` (`store.go`): create the WAL over the existing
`wal.log` contents, then replay it into an initially empty map.  The
snapshot file on disk is never consulted — the source contains no call to
`loadSnapshot`. -/
def OpenWithConfig (d : Disk) : Except DecodeErr Store :=
  match WAL.Replay ⟨d.wal, false⟩ with
  | .error e => .error e
  | .ok entries => .ok ⟨entries.foldl applyEntry [], ⟨d.wal, false⟩⟩

/-- `Store.Set` (`store.go`): append a `Set` record to the WAL first; on
failure return the error with the store untouched; only on success update
the in-memory map.  The pair returns the Go method's error value together
with the receiver's state after the call. -/
def Store.Set (s : Store) (ts : Int) (key value : List Nat) : Except Unit Unit × Store :=
  match s.wal.Append (NewSetEntry ts key value) with
  | .error e => (.error e, s)
  | .ok w => (.ok (), ⟨mapInsert s.data key value, w⟩)

/-- `Store.Delete` (`store.go`): append a `Delete` record to the WAL
first; on failure return the error with the store untouched; only on
success remove the key from the in-memory map. -/
def Store.Delete (s : Store) (ts : Int) (key : List Nat) : Except Unit Unit × Store :=
  match s.wal.Append (NewDeleteEntry ts key) with
  | .error e => (.error e, s)
  | .ok w => (.ok (), ⟨mapRemove s.data key, w⟩)

/-- `Store.Get` (`store.go`): a map lookup; `none` models the Go result
`(nil, false)`. -/
def Store.Get (s : Store) (key : List Nat) : Option (List Nat) :=
  mapLookup s.data key

/-- `Store.Len` (`store.go`). -/
def Store.Len (s : Store) : Nat :=
  s.data.length

/-- `Store.Keys` (`store.go`): the keys in map-iteration order. -/
def Store.Keys (s : Store) : List (List Nat) :=
  s.data.map Prod.fst

/-- `Store.Close` (`store.go`): truncate the WAL, then close it; both
steps fail only when the file handle is already closed.  The function
returns the resulting on-disk state of the data directory:
`wal.log` is truncated to zero bytes and the snapshot file is whatever it
was before the call — this `Store.Close` writes no snapshot (the source
contains no call to `writeSnapshot`). -/
def Store.Close (s : Store) (snapshotFile : Option (List Nat)) : Except Unit Disk :=
  if s.wal.closed then .error () else .ok ⟨snapshotFile, []⟩

/-- Magic number of a snapshot file, `"KVSP"` (`snapshot.go`). -/
def SnapshotMagic : Nat := 0x4B565350

/-- The per-entry buffer built by `writeSnapshot` (`snapshot.go`): key
length, key, value length, and the value when `valueLen > 0`. -/
def snapEntryData (k v : List Nat) : List Nat :=
  natToBe32 (k.length % 2 ^ 32) ++ k ++ natToBe32 (v.length % 2 ^ 32) ++
    (if v.length % 2 ^ 32 > 0 then v else [])

/-- The entry section written by `writeSnapshot`: each entry's buffer
followed by its CRC-32, in map-iteration order. -/
def writeSnapshotEntries : List (List Nat × List Nat) → List Nat
  | [] => []
  | (k, v) :: t =>
      snapEntryData k v ++ natToBe32 (crc32 (snapEntryData k v)) ++ writeSnapshotEntries t

/-- The header buffer built by `writeSnapshot`: magic, timestamp, entry
count narrowed to `uint32`. -/
def snapHeader (ts : Int) (count : Nat) : List Nat :=
  natToBe32 SnapshotMagic ++ natToBe64 (intToUInt64 ts) ++ natToBe32 (count % 2 ^ 32)

/-- `writeSnapshot` (`snapshot.go`), as the byte contents of the
snapshot file it produces (the temp-file-plus-rename dance is invisible
at this level): header, header CRC-32, then the entries.  The map is
given as an association list in iteration order. -/
def writeSnapshot (ts : Int) (data : List (List Nat × List Nat)) : List Nat :=
  snapHeader ts data.length ++ natToBe32 (crc32 (snapHeader ts data.length)) ++
    writeSnapshotEntries data

/-- Errors surfaced by `loadSnapshot` (`snapshot.go`), abstracting the
Go error strings by category. -/
inductive SnapErr where
  | readFail
  | invalidMagic
  | headerChecksum
  | entryChecksum
deriving DecidableEq

/-- The entry-reading loop of `loadSnapshot` (`snapshot.go`): `count`
times, read key length, key, value length, value and the stored entry
CRC-32, verify the CRC over the re-accumulated bytes, and insert into the
map.  Trailing bytes after the last entry are not inspected, mirroring
the source. -/
def loadSnapshotEntries :
    Nat → List (List Nat × List Nat) → List Nat → Except SnapErr (List (List Nat × List Nat))
  | 0, acc, _ => .ok acc
  | n + 1, acc, l =>
    match readBytes 4 l with
    | none => .error .readFail
    | some (klB, r1) =>
      match readBytes (beToNat klB) r1 with
      | none => .error .readFail
      | some (keyB, r2) =>
        match readBytes 4 r2 with
        | none => .error .readFail
        | some (vlB, r3) =>
          match readBytes (beToNat vlB) r3 with
          | none => .error .readFail
          | some (valB, r4) =>
            match readBytes 4 r4 with
            | none => .error .readFail
            | some (crcB, r5) =>
              if crc32 (klB ++ keyB ++ vlB ++ valB) ≠ beToNat crcB then .error .entryChecksum
              else loadSnapshotEntries n (mapInsert acc keyB valB) r5

/-- The body of `loadSnapshot` on an existing snapshot file: read and
verify the header (magic, timestamp, count, header CRC-32), then read
`count` entries into an empty map. -/
def loadSnapshotBytes (l : List Nat) : Except SnapErr (List (List Nat × List Nat)) :=
  match readBytes 4 l with
  | none => .error .readFail
  | some (magicB, r1) =>
    if beToNat magicB ≠ SnapshotMagic then .error .invalidMagic else
    match readBytes 8 r1 with
    | none => .error .readFail
    | some (tsB, r2) =>
      match readBytes 4 r2 with
      | none => .error .readFail
      | some (cntB, r3) =>
        match readBytes 4 r3 with
        | none => .error .readFail
        | some (hcrcB, r4) =>
          if crc32 (magicB ++ tsB ++ cntB) ≠ beToNat hcrcB then .error .headerChecksum
          else loadSnapshotEntries (beToNat cntB) [] r4

/-- `loadSnapshot` (`snapshot.go`): a missing snapshot file yields an
empty map with no error; an existing file is parsed and verified. -/
def loadSnapshot : Option (List Nat) → Except SnapErr (List (List Nat × List Nat))
  | none => .ok []
  | some l => loadSnapshotBytes l

theorem mapLookup_isSome_iff (m : List (List Nat × List Nat)) (k : List Nat) :
    (mapLookup m k).isSome ↔ k ∈ m.map Prod.fst := by
  induction m with
  | nil => simp [mapLookup]
  | cons p t ih =>
      obtain ⟨k1, v1⟩ := p
      by_cases h : k1 = k
      · subst h
        simp [mapLookup]
      · simp only [mapLookup, h, if_false, List.map_cons, List.mem_cons]
        rw [ih]
        constructor
        · exact fun hm => Or.inr hm
        · rintro (rfl | hm)
          · exact absurd rfl h
          · exact hm

theorem mapInsert_mem_keys (m : List (List Nat × List Nat)) (k v a : List Nat) :
    a ∈ (mapInsert m k v).map Prod.fst ↔ a ∈ m.map Prod.fst ∨ a = k := by
  induction m with
  | nil => simp [mapInsert]
  | cons p t ih =>
      obtain ⟨k1, v1⟩ := p
      by_cases h : k1 = k
      · subst h
        simp [mapInsert]
        tauto
      · simp [mapInsert, h, ih]
        tauto

theorem mapInsert_nodup (m : List (List Nat × List Nat)) (k v : List Nat)
    (h : (m.map Prod.fst).Nodup) : ((mapInsert m k v).map Prod.fst).Nodup := by
  induction m with
  | nil => simp [mapInsert]
  | cons p t ih =>
      obtain ⟨k1, v1⟩ := p
      simp only [List.map_cons, List.nodup_cons] at h
      by_cases hk : k1 = k
      · subst hk
        simpa [mapInsert] using h
      · simp only [mapInsert, hk, if_false, List.map_cons, List.nodup_cons]
        refine ⟨fun hmem => ?_, ih h.2⟩
        rcases (mapInsert_mem_keys t k v k1).mp hmem with h1 | h1
        · exact h.1 h1
        · exact hk h1

theorem mapRemove_sublist (m : List (List Nat × List Nat)) (k : List Nat) :
    (mapRemove m k).Sublist m := by
  induction m with
  | nil => simp [mapRemove]
  | cons p t ih =>
      obtain ⟨k1, v1⟩ := p
      by_cases h : k1 = k
      · subst h
        simp only [mapRemove, if_pos rfl]
        exact List.sublist_cons_self _ t
      · simp only [mapRemove, h, if_false]
        exact ih.cons₂ (k1, v1)

theorem mapRemove_nodup (m : List (List Nat × List Nat)) (k : List Nat)
    (h : (m.map Prod.fst).Nodup) : ((mapRemove m k).map Prod.fst).Nodup :=
  ((mapRemove_sublist m k).map Prod.fst).nodup h

theorem applyEntry_nodup (m : List (List Nat × List Nat)) (e : Entry)
    (h : (m.map Prod.fst).Nodup) : ((applyEntry m e).map Prod.fst).Nodup := by
  unfold applyEntry
  split
  · exact mapInsert_nodup m e.Key e.Value h
  · split
    · exact mapRemove_nodup m e.Key h
    · exact h

theorem foldl_applyEntry_nodup (entries : List Entry) (m : List (List Nat × List Nat))
    (h : (m.map Prod.fst).Nodup) :
    ((entries.foldl applyEntry m).map Prod.fst).Nodup := by
  induction entries generalizing m with
  | nil => exact h
  | cons e t ih => exact ih (applyEntry m e) (applyEntry_nodup m e h)

/-- Store states reachable through the public interface: an `open` of
some data directory, followed by any sequence of successful `Set` and
`Delete` operations. -/
inductive Reachable : Store → Prop where
  | openStep (d : Disk) (s : Store) : OpenWithConfig d = .ok s → Reachable s
  | setStep (s : Store) (ts : Int) (k v : List Nat) (s2 : Store) :
      Reachable s → Store.Set s ts k v = (.ok (), s2) → Reachable s2
  | deleteStep (s : Store) (ts : Int) (k : List Nat) (s2 : Store) :
      Reachable s → Store.Delete s ts k = (.ok (), s2) → Reachable s2

/-- Key-uniqueness invariant of the in-memory map: every reachable store
has pairwise-distinct keys. -/
theorem reachable_nodup {s : Store} (h : Reachable s) : (s.data.map Prod.fst).Nodup := by
  induction h with
  | openStep d s hopen =>
      unfold OpenWithConfig at hopen
      split at hopen
      · exact absurd hopen (by simp)
      · cases hopen
        exact foldl_applyEntry_nodup _ [] (by simp)
  | setStep s ts k v s2 _ hset ih =>
      unfold Store.Set at hset
      split at hset
      · exact absurd hset (by simp)
      · cases hset
        exact mapInsert_nodup _ k v ih
  | deleteStep s ts k s2 _ hdel ih =>
      unfold Store.Delete at hdel
      split at hdel
      · exact absurd hdel (by simp)
      · cases hdel
        exact mapRemove_nodup _ k ih

/-- Well-formedness of one key-value pair as Go produces it: `uint32`-
representable lengths and byte-valued contents. -/
def KVWF (p : List Nat × List Nat) : Prop :=
  p.1.length < 2 ^ 32 ∧ p.2.length < 2 ^ 32 ∧ (∀ b ∈ p.1, b < 256) ∧ (∀ b ∈ p.2, b < 256)

instance instDecKVWF (p : List Nat × List Nat) : Decidable (KVWF p) := by
  unfold KVWF
  infer_instance

theorem snapEntryData_mem_lt (k v : List Nat) (hv : v.length < 2 ^ 32)
    (hkb : ∀ b ∈ k, b < 256) (hvb : ∀ b ∈ v, b < 256) :
    ∀ b ∈ snapEntryData k v, b < 256 := by
  intro b hb
  rw [snapEntryData, valueWriteEq v hv] at hb
  simp only [List.mem_append] at hb
  rcases hb with ((h | h) | h) | h
  · exact natToBe32_mem_lt _ b h
  · exact hkb b h
  · exact natToBe32_mem_lt _ b h
  · exact hvb b h

theorem snapHeader_mem_lt (ts : Int) (count : Nat) :
    ∀ b ∈ snapHeader ts count, b < 256 := by
  intro b hb
  rw [snapHeader] at hb
  simp only [List.mem_append] at hb
  rcases hb with (h | h) | h
  · exact natToBe32_mem_lt _ b h
  · exact natToBe64_mem_lt _ b h
  · exact natToBe32_mem_lt _ b h

theorem mapInsert_append_of_not_mem (m : List (List Nat × List Nat)) (k v : List Nat)
    (h : k ∉ m.map Prod.fst) : mapInsert m k v = m ++ [(k, v)] := by
  induction m with
  | nil => rfl
  | cons p t ih =>
      obtain ⟨k1, v1⟩ := p
      simp only [List.map_cons, List.mem_cons, not_or] at h
      have hne : ¬ k1 = k := fun he => h.1 he.symm
      simp only [mapInsert, if_neg hne, List.cons_append]
      rw [ih h.2]

theorem foldl_mapInsert_append (data : List (List Nat × List Nat)) :
    ∀ acc, (∀ a ∈ data.map Prod.fst, a ∉ acc.map Prod.fst) →
    (data.map Prod.fst).Nodup →
    data.foldl (fun m p => mapInsert m p.1 p.2) acc = acc ++ data := by
  induction data with
  | nil => intro acc _ _; simp
  | cons p t ih =>
      intro acc hdisj hnd
      obtain ⟨k, v⟩ := p
      simp only [List.map_cons, List.nodup_cons] at hnd
      have hk : k ∉ acc.map Prod.fst := hdisj k (by simp)
      simp only [List.foldl_cons]
      rw [mapInsert_append_of_not_mem acc k v hk]
      rw [ih (acc ++ [(k, v)]) ?_ hnd.2]
      · simp
      · intro a ha
        simp only [List.map_append, List.mem_append, not_or]
        refine ⟨hdisj a (by simp [ha]), fun he => ?_⟩
        rw [show List.map Prod.fst [(k, v)] = [k] from rfl, List.mem_singleton] at he
        subst he
        exact hnd.1 ha

theorem loadSnapshotEntries_write (data : List (List Nat × List Nat)) :
    ∀ acc, (∀ p ∈ data, KVWF p) →
    loadSnapshotEntries data.length acc (writeSnapshotEntries data) =
      .ok (data.foldl (fun m p => mapInsert m p.1 p.2) acc) := by
  induction data with
  | nil => intro acc _; rfl
  | cons p t ih =>
      intro acc hwf
      obtain ⟨k, v⟩ := p
      obtain ⟨hk, hv, hkb, hvb⟩ := hwf (k, v) (by simp)
      have hwt : ∀ q ∈ t, KVWF q := fun q hq => hwf q (by simp [hq])
      have hc_lt : crc32 (snapEntryData k v) < 2 ^ 32 :=
        crc32_lt (snapEntryData_mem_lt k v hv hkb hvb)
      have hkl : beToNat (natToBe32 (k.length % 2 ^ 32)) = k.length := by
        rw [beToNat_natToBe32 (Nat.mod_lt _ (by norm_num)), Nat.mod_eq_of_lt hk]
      have hvl : beToNat (natToBe32 (v.length % 2 ^ 32)) = v.length := by
        rw [beToNat_natToBe32 (Nat.mod_lt _ (by norm_num)), Nat.mod_eq_of_lt hv]
      have hval : (if v.length % 2 ^ 32 > 0 then v else []) = v := valueWriteEq v hv
      have hcrc : beToNat (natToBe32 (crc32 (snapEntryData k v))) = crc32 (snapEntryData k v) :=
        beToNat_natToBe32 hc_lt
      simp only [snapEntryData, hval] at hcrc
      simp only [writeSnapshotEntries, snapEntryData, hval, List.length_cons,
        List.append_assoc] at hcrc ⊢
      simp only [show (2 : Nat) ^ 32 = 4294967296 from by norm_num] at hkl hvl hcrc ⊢
      simp only [loadSnapshotEntries, readBytes_be32, hkl, hvl, hcrc, readBytes_append,
        List.append_assoc]
      rw [if_neg (by simp)]
      exact ih (mapInsert acc k v) hwt

/-- Snapshot round-trip on the byte level: loading the bytes written for
a map with pairwise-distinct keys yields exactly that map. -/
theorem loadSnapshot_writeSnapshot (ts : Int) (data : List (List Nat × List Nat))
    (hcnt : data.length < 2 ^ 32) (hwf : ∀ p ∈ data, KVWF p)
    (hnd : (data.map Prod.fst).Nodup) :
    loadSnapshot (some (writeSnapshot ts data)) = .ok data := by
  have hm : beToNat (natToBe32 SnapshotMagic) = SnapshotMagic :=
    beToNat_natToBe32 (by norm_num [SnapshotMagic])
  have hcl : beToNat (natToBe32 (data.length % 2 ^ 32)) = data.length := by
    rw [beToNat_natToBe32 (Nat.mod_lt _ (by norm_num)), Nat.mod_eq_of_lt hcnt]
  have hc_lt : crc32 (snapHeader ts data.length) < 2 ^ 32 :=
    crc32_lt (snapHeader_mem_lt ts data.length)
  have hcrc : beToNat (natToBe32 (crc32 (snapHeader ts data.length))) =
      crc32 (snapHeader ts data.length) := beToNat_natToBe32 hc_lt
  simp only [snapHeader, List.append_assoc] at hcrc
  simp only [loadSnapshot, writeSnapshot, snapHeader, List.append_assoc]
  simp only [show (2 : Nat) ^ 32 = 4294967296 from by norm_num] at hcl hcrc ⊢
  simp only [loadSnapshotBytes, readBytes_be32, readBytes_be64, hm, hcl, hcrc,
    List.append_assoc]
  rw [if_neg (by simp), if_neg (by simp)]
  rw [loadSnapshotEntries_write data [] hwf]
  rw [foldl_mapInsert_append data [] (by simp) hnd]
  simp

theorem readBytes_be32_exact (n : Nat) :
    readBytes 4 (natToBe32 n) = some (natToBe32 n, []) := by
  have h := readBytes_be32 n []
  rwa [List.append_nil] at h

/-- Decoding a record whose stored CRC trailer differs from the CRC-32 of
the record's data bytes fails with the checksum-mismatch error. -/
theorem DecodeEntry_badCrc (e : Entry) (hk : e.Key.length < 2 ^ 32)
    (hv : e.Value.length < 2 ^ 32) (c : Nat) (hclt : c < 2 ^ 32)
    (hne : c ≠ crc32 e.dataBytes) :
    DecodeEntry (e.dataBytes ++ natToBe32 c) = .error DecodeErr.checksumMismatch := by
  obtain ⟨op, ts, key, val⟩ := e
  simp only at hk hv
  have hm : beToNat (natToBe32 EntryMagic) = EntryMagic :=
    beToNat_natToBe32 (by norm_num [EntryMagic])
  have hkl : beToNat (natToBe32 (key.length % 2 ^ 32)) = key.length := by
    rw [beToNat_natToBe32 (Nat.mod_lt _ (by norm_num)), Nat.mod_eq_of_lt hk]
  have hvl : beToNat (natToBe32 (val.length % 2 ^ 32)) = val.length := by
    rw [beToNat_natToBe32 (Nat.mod_lt _ (by norm_num)), Nat.mod_eq_of_lt hv]
  have hval : (if val.length % 2 ^ 32 > 0 then val else []) = val := valueWriteEq val hv
  have hc : beToNat (natToBe32 c) = c := beToNat_natToBe32 hclt
  simp only [Entry.dataBytes, hval, List.append_assoc, List.singleton_append] at hne ⊢
  simp only [show (2 : Nat) ^ 32 = 4294967296 from by norm_num] at hkl hvl hne ⊢
  simp [DecodeEntry, readBytes_be32, readBytes_be64, readBytes_one, readBytes_append,
    readBytes_be32_exact, hm, hkl, hvl, hc, List.append_assoc, List.singleton_append]
  exact fun h => hne h.symm

/-- The length of the record buffer: 21 header-and-length bytes plus key
and value. -/
theorem dataBytes_length (e : Entry) (hv : e.Value.length < 2 ^ 32) :
    e.dataBytes.length = 21 + e.Key.length + e.Value.length := by
  rw [Entry.dataBytes, valueWriteEq e.Value hv]
  simp only [List.length_append, natToBe32_length, natToBe64_length,
    List.length_singleton]
  omega

/-- C1: the claim states that after any sequence of successful set/delete
operations, a `Close` followed by an `Open` of the same data directory
observes every key's last successfully written state.  The code refutes
it: this concrete run opens a fresh directory, successfully sets key
`[107]` to `[118]`, closes successfully (which truncates `wal.log` and
writes no snapshot), reopens, and `Get [107]` returns `none` instead of
the claimed `some [118]`.  The repository's own
`TestStoreRecoveryAfterCleanShutdown` expects the opposite outcome. -/
theorem c1_close_open_loses_data :
    OpenWithConfig ⟨none, []⟩ = .ok ⟨[], ⟨[], false⟩⟩ ∧
    Store.Set ⟨[], ⟨[], false⟩⟩ 0 [107] [118] =
      (.ok (), ⟨[([107], [118])], ⟨(NewSetEntry 0 [107] [118]).Encode, false⟩⟩) ∧
    Store.Close ⟨[([107], [118])], ⟨(NewSetEntry 0 [107] [118]).Encode, false⟩⟩ none =
      .ok ⟨none, []⟩ ∧
    Store.Get ⟨[], ⟨[], false⟩⟩ [107] = none := by
  decide

/-- C2: the claim states that `Close` first writes a snapshot and
truncates the WAL only if the snapshot write succeeded.  The code
refutes it: `Store.Close` never calls `writeSnapshot` and truncates the
WAL unconditionally.  Concretely, closing a store that holds
`[107] ↦ [118]` succeeds, truncates `wal.log` to zero bytes, and leaves
the on-disk snapshot exactly as it was before the call — absent when it
was absent, stale when it held stale bytes — instead of a snapshot of the
in-memory map. -/
theorem c2_close_writes_no_snapshot :
    Store.Close ⟨[([107], [118])], ⟨(NewSetEntry 0 [107] [118]).Encode, false⟩⟩ none =
      .ok ⟨none, []⟩ ∧
    Store.Close ⟨[([107], [118])], ⟨(NewSetEntry 0 [107] [118]).Encode, false⟩⟩
        (some [1, 2, 3]) = .ok ⟨some [1, 2, 3], []⟩ := by
  decide

/-- C3: the claim states that `open` first loads the snapshot file into
the in-memory map and then replays the WAL on top.  The code refutes the
snapshot part: `OpenWithConfig` never calls `loadSnapshot`.  Concretely,
over a data directory whose `snapshot.dat` is a perfectly valid and
loadable snapshot of `[97] ↦ [120]` and whose `wal.log` is empty, open
succeeds with an empty map and `Get [97]` returns `none` instead of the
claimed `some [120]`. -/
theorem c3_open_ignores_snapshot :
    loadSnapshot (some (writeSnapshot 0 [([97], [120])])) = .ok [([97], [120])] ∧
    OpenWithConfig ⟨some (writeSnapshot 0 [([97], [120])]), []⟩ = .ok ⟨[], ⟨[], false⟩⟩ ∧
    Store.Get ⟨[], ⟨[], false⟩⟩ [97] = none := by
  decide

/-- C4: the claim states that flipping any single bit of the final WAL
record never makes `open` fail.  The code refutes it for the magic
field: `WAL.Replay` stops cleanly only on `checksum mismatch` and
`failed to read` errors and propagates the `invalid magic` error, so
`open` fails.  Concretely, for a WAL holding one valid record followed
by a copy of that record whose first byte (the `0x4B` of the magic) has
bit 0 flipped, `OpenWithConfig` returns the invalid-magic error; the
first conjunct shows the same record replays fine uncorrupted, and the
last shows a single-bit flip in a non-magic byte (a timestamp byte) of
the final record keeps `open` succeeding with the earlier record
recovered, isolating the magic field as the failing case. -/
theorem c4_magic_bit_flip_fails_open :
    WAL.Replay ⟨(NewSetEntry 0 [97] [98]).Encode, false⟩ = .ok [NewSetEntry 0 [97] [98]] ∧
    (NewSetEntry 0 [97] [98]).Encode.headD 0 = 0x4B ∧
    OpenWithConfig ⟨none, (NewSetEntry 0 [97] [98]).Encode ++
        List.set (NewSetEntry 0 [97] [98]).Encode 0 (0x4B ^^^ 1)⟩ =
      .error DecodeErr.invalidMagic ∧
    OpenWithConfig ⟨none, (NewSetEntry 0 [97] [98]).Encode ++
        List.set (NewSetEntry 0 [97] [98]).Encode 5
          ((NewSetEntry 0 [97] [98]).Encode.getD 5 0 ^^^ 1)⟩ =
      .ok ⟨[([97], [98])], ⟨(NewSetEntry 0 [97] [98]).Encode ++
        List.set (NewSetEntry 0 [97] [98]).Encode 5
          ((NewSetEntry 0 [97] [98]).Encode.getD 5 0 ^^^ 1), false⟩⟩ := by
  decide

/-- C5: if the WAL append performed by `Set` or `Delete` fails (in this
model: the WAL handle is closed, the failure mode the repository's
`TestStoreWALFailure` exercises), the operation returns the error and the
store — in particular its in-memory map, hence every key's lookup — is
exactly the pre-call store; the map is mutated only in the success branch
after the append. -/
theorem c5_failed_append_leaves_map_untouched (s : Store) (ts : Int) (k v : List Nat)
    (h : s.wal.closed = true) :
    (s.Set ts k v).1 = .error () ∧ (s.Set ts k v).2 = s ∧
    (∀ k2, ((s.Set ts k v).2).Get k2 = s.Get k2) ∧
    (s.Delete ts k).1 = .error () ∧ (s.Delete ts k).2 = s ∧
    (∀ k2, ((s.Delete ts k).2).Get k2 = s.Get k2) := by
  simp [Store.Set, Store.Delete, WAL.Append, h]

/-- Witness for C5 on the `TestStoreWALFailure` scenario: a store holding
`key1` whose WAL handle has been closed behind its back; `Set` of a new
key fails and both the new and the old key read as before. -/
theorem c5_failed_append_witness :
    (Store.Set ⟨[([107], [118])], ⟨[], true⟩⟩ 0 [108] [119]).1 = .error () ∧
    (Store.Set ⟨[([107], [118])], ⟨[], true⟩⟩ 0 [108] [119]).2 =
      ⟨[([107], [118])], ⟨[], true⟩⟩ ∧
    (Store.Get (Store.Set ⟨[([107], [118])], ⟨[], true⟩⟩ 0 [108] [119]).2 [108] =
      Store.Get ⟨[([107], [118])], ⟨[], true⟩⟩ [108]) ∧
    (Store.Get (Store.Set ⟨[([107], [118])], ⟨[], true⟩⟩ 0 [108] [119]).2 [107] =
      Store.Get ⟨[([107], [118])], ⟨[], true⟩⟩ [107]) ∧
    (Store.Delete ⟨[([107], [118])], ⟨[], true⟩⟩ 0 [107]).1 = .error () ∧
    (Store.Delete ⟨[([107], [118])], ⟨[], true⟩⟩ 0 [107]).2 =
      ⟨[([107], [118])], ⟨[], true⟩⟩ := by
  have h := c5_failed_append_leaves_map_untouched
    ⟨[([107], [118])], ⟨[], true⟩⟩ 0 [108] [119] rfl
  have h2 := c5_failed_append_leaves_map_untouched
    ⟨[([107], [118])], ⟨[], true⟩⟩ 0 [107] [119] rfl
  exact ⟨h.1, h.2.1, h.2.2.1 [108], h.2.2.1 [107], h2.2.2.2.1, h2.2.2.2.2.1⟩

/-- C6: for every well-formed record — operation `Set` or `Delete`, any
`int64` timestamp, key and value shorter than `2 ^ 32` bytes with
byte-valued contents — decoding the bytes produced by encoding it yields
a record equal to it in all four fields (the returned `Entry` is equal to
the input, with the whole encoding consumed). -/
theorem c6_decode_encode_eq (e : Entry)
    (hop : e.Operation = OpSet ∨ e.Operation = OpDelete)
    (ht1 : -(2 ^ 63) ≤ e.Timestamp) (ht2 : e.Timestamp < 2 ^ 63)
    (hk : e.Key.length < 2 ^ 32) (hv : e.Value.length < 2 ^ 32)
    (hkb : ∀ b ∈ e.Key, b < 256) (hvb : ∀ b ∈ e.Value, b < 256) :
    DecodeEntry e.Encode = .ok (e, []) := by
  have hop2 : e.Operation < 256 := by
    rcases hop with h | h <;> simp [h, OpSet, OpDelete]
  have h := DecodeEntry_Encode e [] hop2 ht1 ht2 hk hv hkb hvb
  simpa using h

/-- Witness for C6 at a concrete `Set` record. -/
theorem c6_decode_encode_witness :
    DecodeEntry (NewSetEntry 5 [107, 49] [118, 97, 108]).Encode =
      .ok (NewSetEntry 5 [107, 49] [118, 97, 108], []) :=
  c6_decode_encode_eq (NewSetEntry 5 [107, 49] [118, 97, 108]) (Or.inl rfl)
    (by decide) (by decide) (by decide) (by decide) (by decide) (by decide)

/-- C7: writing any map (any association of byte keys shorter than
`2 ^ 32` to byte values shorter than `2 ^ 32`, keys pairwise distinct,
fewer than `2 ^ 32` entries, presented in an arbitrary iteration order)
as a snapshot and loading that snapshot back yields exactly the same
bindings — in particular a map with the same key set and the same value
for every key, whatever the iteration order was. -/
theorem c7_snapshot_load_write (ts : Int) (data : List (List Nat × List Nat))
    (hcnt : data.length < 2 ^ 32) (hwf : ∀ p ∈ data, KVWF p)
    (hnd : (data.map Prod.fst).Nodup) :
    loadSnapshot (some (writeSnapshot ts data)) = .ok data :=
  loadSnapshot_writeSnapshot ts data hcnt hwf hnd

/-- Witness for C7 at a concrete two-entry map. -/
theorem c7_snapshot_load_write_witness :
    loadSnapshot (some (writeSnapshot 7 [([97], [120]), ([98], [])])) =
      .ok [([97], [120]), ([98], [])] :=
  c7_snapshot_load_write 7 [([97], [120]), ([98], [])] (by decide)
    (by decide) (by decide)

/-- C8: every encoded WAL record is its data bytes (magic, op, timestamp,
key length, key, value length, value — 21 bytes plus key and value)
followed by exactly four bytes holding the big-endian CRC-32 (IEEE
polynomial) of all preceding bytes; and decoding a fully readable record
whose stored CRC differs from the recomputed CRC of those data bytes
returns the checksum-mismatch error. -/
theorem c8_crc_trailer_and_check (e : Entry) (hk : e.Key.length < 2 ^ 32)
    (hv : e.Value.length < 2 ^ 32) :
    ((e.Encode).length = 25 + e.Key.length + e.Value.length ∧
      (e.Encode).drop (21 + e.Key.length + e.Value.length) =
        natToBe32 (crc32 ((e.Encode).take (21 + e.Key.length + e.Value.length)))) ∧
    ∀ c : Nat, c < 2 ^ 32 → c ≠ crc32 e.dataBytes →
      DecodeEntry (e.dataBytes ++ natToBe32 c) = .error DecodeErr.checksumMismatch := by
  have hdb := dataBytes_length e hv
  refine ⟨⟨?_, ?_⟩, fun c hclt hne => DecodeEntry_badCrc e hk hv c hclt hne⟩
  · rw [Entry.Encode]
    simp only [List.length_append, natToBe32_length, hdb]
    omega
  · rw [Entry.Encode, ← hdb, List.drop_left, List.take_left]

/-- Witness for C8 at a concrete record and the concrete wrong CRC `0`. -/
theorem c8_crc_trailer_witness :
    (((NewSetEntry 0 [97] [98]).Encode).length = 25 + 1 + 1 ∧
      ((NewSetEntry 0 [97] [98]).Encode).drop (21 + 1 + 1) =
        natToBe32 (crc32 (((NewSetEntry 0 [97] [98]).Encode).take (21 + 1 + 1)))) ∧
    DecodeEntry ((NewSetEntry 0 [97] [98]).dataBytes ++ natToBe32 0) =
      .error DecodeErr.checksumMismatch := by
  have h := c8_crc_trailer_and_check (NewSetEntry 0 [97] [98]) (by decide) (by decide)
  exact ⟨h.1, h.2 0 (by decide) (by decide)⟩

/-- C9: decoding the encoding of any record whose value is the empty
(length-zero) byte sequence — the single representation this embedding
gives to both Go `nil` and Go empty slices, which the codec cannot
distinguish — returns the record with a length-zero value; in particular
`NewDeleteEntry` always constructs its record with that empty value. -/
theorem c9_empty_value_roundtrip (e : Entry) (hvz : e.Value = [])
    (hop : e.Operation < 256) (ht1 : -(2 ^ 63) ≤ e.Timestamp)
    (ht2 : e.Timestamp < 2 ^ 63) (hk : e.Key.length < 2 ^ 32)
    (hkb : ∀ b ∈ e.Key, b < 256) :
    DecodeEntry e.Encode = .ok (e, []) ∧ e.Value.length = 0 ∧
    ∀ (ts : Int) (k : List Nat), (NewDeleteEntry ts k).Value = [] := by
  refine ⟨?_, by simp [hvz], fun ts k => rfl⟩
  have h := DecodeEntry_Encode e [] hop ht1 ht2 hk (by simp [hvz])
    hkb (by simp [hvz])
  simpa using h

/-- Witness for C9 at a concrete `Delete` record (whose value is the
model of Go's `nil`). -/
theorem c9_empty_value_witness :
    DecodeEntry (NewDeleteEntry 3 [100]).Encode = .ok (NewDeleteEntry 3 [100], []) ∧
    (NewDeleteEntry 3 [100]).Value.length = 0 ∧
    ∀ (ts : Int) (k : List Nat), (NewDeleteEntry ts k).Value = [] :=
  c9_empty_value_roundtrip (NewDeleteEntry 3 [100]) rfl (by decide) (by decide)
    (by decide) (by decide) (by decide)

/-- C10: in every store state reachable by an `open` followed by any
sequence of successful `Set`/`Delete` operations, the three read
operations agree: `Keys` has no duplicates, a key is in `Keys` exactly
when `Get` finds it, and `Len` equals the number of keys `Get` finds
(= the length of the duplicate-free `Keys`). -/
theorem c10_read_ops_agree (s : Store) (h : Reachable s) :
    s.Keys.Nodup ∧ (∀ k, k ∈ s.Keys ↔ (s.Get k).isSome) ∧ s.Len = s.Keys.length := by
  refine ⟨reachable_nodup h, fun k => ?_, ?_⟩
  · rw [Store.Keys, Store.Get, ← mapLookup_isSome_iff]
  · simp [Store.Len, Store.Keys]

/-- Witness for C10 at the concrete store reached by opening a directory
whose WAL holds one `Set` record. -/
theorem c10_read_ops_witness :
    (Store.Keys ⟨[([97], [120])], ⟨(NewSetEntry 0 [97] [120]).Encode, false⟩⟩).Nodup ∧
    Store.Len ⟨[([97], [120])], ⟨(NewSetEntry 0 [97] [120]).Encode, false⟩⟩ =
      (Store.Keys ⟨[([97], [120])], ⟨(NewSetEntry 0 [97] [120]).Encode, false⟩⟩).length ∧
    ([97] ∈ Store.Keys ⟨[([97], [120])], ⟨(NewSetEntry 0 [97] [120]).Encode, false⟩⟩ ↔
      (Store.Get ⟨[([97], [120])], ⟨(NewSetEntry 0 [97] [120]).Encode, false⟩⟩ [97]).isSome) := by
  have h := c10_read_ops_agree ⟨[([97], [120])], ⟨(NewSetEntry 0 [97] [120]).Encode, false⟩⟩
    (Reachable.openStep ⟨none, (NewSetEntry 0 [97] [120]).Encode⟩ _ (by decide))
  exact ⟨h.1, h.2.2, h.2.1 [97]⟩
